import Mathlib

/-
Verification of the go-japi request-handling pipeline.

The definitions below are a shallow embedding of the repository's core:
the RFC7807 problem model with enrichment (src/problem/util.go), the
generic handler adapter `handler.handle` (src/api.go), the route-variable
logging prologue, and the two lineages' middleware composition in
`API.Router`.  External collaborators (the per-source decoders, the JSON
body codec, the logging hooks) are modelled at their interface boundary as
opaque function parameters, exactly as the spec scopes them.
-/

namespace Japi

/-- Shallow model of a Go `context.Context`: an opaque request context.
`stale` models whether the context is already cancelled or expired
(`ctx.Err() != nil`); `id` distinguishes distinct contexts. -/
structure Ctx where
  stale : Bool := false
  id : Nat := 0
deriving DecidableEq, Repr

/-- Model of Go's `http.Header` / `url.Values`: an association list from
key to list of values. -/
abbrev HeaderMap := List (String × List String)

/-- Model of parsed URL query values (`r.URL.Query()`). -/
abbrev QueryMap := List (String × List String)

/-- Model of `httprouter.Params`: captured (Key, Value) pairs in order. -/
abbrev Params := List (String × String)

/-- Go map assignment `m[k] = v`: replace the binding of `k` if present,
otherwise append it. -/
def mput {α : Type} : List (String × α) → String → α → List (String × α)
  | [], k, v => [(k, v)]
  | (k', v') :: rest, k, v =>
      if k' = k then (k, v) :: rest else (k', v') :: mput rest k v

/-- Go map read `m[k]`: the value bound to the first occurrence of `k`. -/
def mget {α : Type} : List (String × α) → String → Option α
  | [], _ => none
  | (k', v') :: rest, k => if k' = k then some v' else mget rest k

/-- Character-list version of Go's `strings.HasPrefix`. -/
def charsStart : List Char → List Char → Bool
  | _, [] => true
  | [], _ :: _ => false
  | c :: cs, d :: ds => c = d && charsStart cs ds

/-- Model of Go's `strings.HasPrefix s pre`. -/
def strStarts (s pre : String) : Bool :=
  charsStart s.toList pre.toList

/-- The literal `%s` placeholder of a problem-type URL format template. -/
def psPlaceholder : List Char := ['%', 's']

/-- Replace the first `%s` in a character list by `arg`. -/
def replaceFirstPS : List Char → List Char → List Char
  | [], _ => []
  | '%' :: 's' :: rest, arg => arg ++ rest
  | c :: rest, arg => c :: replaceFirstPS rest arg

/-- Model of `fmt.Sprintf(format, arg)` for a format template holding one
`%s` placeholder (the shape the spec requires of
`ProblemTypeUrlFormat`); a template with no placeholder is returned
unchanged. -/
def sprintf1 (format arg : String) : String :=
  String.mk (replaceFirstPS format.toList arg.toList)

/-- The `about:blank` sentinel problem type (spec section 3). -/
def aboutBlank : String := "about:blank"

/-- The scheme test string used by `ProblemConfig.Enrich`
(src/problem/util.go line 20 uses `strings.HasPrefix(p.Type, "http")`). -/
def httpScheme : String := "http"

/-- RFC7807 problem details document (the `problem.Problem` struct; its
definition file is not under src/, so the field set is modelled from the
spec, section 3: type, title, status, detail, instance, errors).  Lean
field names: `ptype` stands for the Go/JSON field `type` and
`instanceUri` for `instance` (both Lean keywords). -/
structure Problem where
  ptype : String := aboutBlank
  title : String := ""
  status : Nat := 0
  detail : String := ""
  instanceUri : String := ""
  errors : List (String × String) := []
deriving DecidableEq, Repr

/-- The problem enrichment configuration (src/problem/util.go lines 11-16).
`ProblemInstanceFunc` is `none` when the Go function pointer is nil. -/
structure ProblemConfig where
  ProblemTypeUrlFormat : String := ""
  ProblemInstanceFunc : Option (Ctx → String) := none

/-- `ProblemConfig.Enrich` (src/problem/util.go lines 19-26): rewrite the
type through the URL format template unless the format is empty, the type
is the blank sentinel, or the type already starts with `http`; then set
the instance URI from the hook when one is configured. -/
def ProblemConfig.Enrich (cfg : ProblemConfig) (ctx : Ctx) (p : Problem) : Problem :=
  let p1 :=
    if cfg.ProblemTypeUrlFormat ≠ "" ∧ p.ptype ≠ aboutBlank ∧ strStarts p.ptype httpScheme = false then
      { p with ptype := sprintf1 cfg.ProblemTypeUrlFormat p.ptype }
    else p
  match cfg.ProblemInstanceFunc with
  | some f => { p1 with instanceUri := f ctx }
  | none => p1

/-- A chunk written to the response body: the JSON serialization of either
a problem document or a success payload of type `O`. -/
inductive Chunk (O : Type) where
  | problem (p : Problem)
  | payload (o : O)
deriving DecidableEq, Repr

/-- Model of an `http.ResponseWriter`: accumulated headers, the committed
status line (none while unwritten), and the body chunks written so far. -/
structure RW (O : Type) where
  header : HeaderMap := []
  status : Option Nat := none
  body : List (Chunk O) := []
deriving DecidableEq, Repr

/-- A fresh response writer. -/
def RW.empty {O : Type} : RW O := {}

/-- `w.WriteHeader(code)`: Go commits the first status line written and
ignores subsequent calls. -/
def RW.writeHeader {O : Type} (w : RW O) (code : Nat) : RW O :=
  if w.status.isSome then w else { w with status := some code }

/-- `w.Write(...)`: writing a body chunk commits status 200 when no status
line was written yet (the transport default). -/
def RW.writeChunk {O : Type} (w : RW O) (c : Chunk O) : RW O :=
  { w with status := some (w.status.getD 200), body := w.body ++ [c] }

/-- The `Content-Type` header key. -/
def contentTypeKey : String := "Content-Type"

/-- The problem-details media type written by `ServeJSON`. -/
def problemCT : String := "application/problem+json"

/-- The mandatory JSON body encoding (src/api.go line 13). -/
def JsonEncoding : String := "application/json"

/-- The success content type (src/api.go line 320). -/
def jsonCharsetCT : String := "application/json; charset=utf-8"

/-- `Problem.ServeJSON` (src/problem/util.go lines 29-36): set the
problem-details content type, write the problem's status as the status
line, and serialize the problem document to the body. -/
def Problem.ServeJSON {O : Type} (pd : Problem) (w : RW O) : RW O :=
  let w1 := { w with header := mput w.header contentTypeKey [problemCT] }
  (w1.writeHeader pd.status).writeChunk (Chunk.problem pd)

/-- Modelled from the spec: `problem.BadRequest(err)` (the problem
package's constructor file is not under src/).  Spec section 4.1:
bad-request from a decode error is a 400 problem whose detail is the
error text, with a fixed title and short type code. -/
def BadRequest (e : String) : Problem :=
  { ptype := "bad-request", title := "Bad Request", status := 400, detail := e }

/-- Modelled from the spec: `problem.Unexpected(err)` (constructor file
not under src/).  Spec sections 4.1 and 6: unexpected/internal is a 500
problem whose detail is intentionally generic and does not leak the
wrapped error's message. -/
def Unexpected (_e : String) : Problem :=
  { ptype := "unexpected", title := "Unexpected", status := 500,
    detail := "an unexpected error occurred" }

/-- The per-request logging configuration (`japi.Config`,
src/unnamed/part_000 lines 194-200).  The two logging hooks only observe;
the model keeps whether each Go function pointer is nil and records hook
invocations, with their arguments, as trace events. -/
structure Config where
  hasRouteLog : Bool := false
  hasProblemLog : Bool := false
  pc : ProblemConfig := {}

/-- Model of an inbound `*http.Request` as read by `handler.handle`:
headers, the raw and parsed query string, the declared content length and
content type, the raw body, and the ambient request context. -/
structure Request where
  header : HeaderMap := []
  rawQuery : String := ""
  query : QueryMap := []
  contentLength : Int := 0
  contentType : String := ""
  body : String := ""
  ctx : Ctx := {}

/-- Modelled from the spec: the registry consulted by `getDecoder`
(the body-codec file is not under src/).  Spec section 4.2 step 6: a body
codec is keyed by content type, only JSON is mandatory, and an
unsupported content type is an error.  A codec consumes the raw request
body into the typed request value. -/
structure BodyCodecs (T : Type) where
  json : String → T → Except String T
  extra : List (String × (String → T → Except String T)) := []

/-- Modelled from the spec: `getDecoder(contentType)` returns the codec
registered for the content type (JSON always present) and fails with the
not-supported error otherwise. -/
def getDecoder {T : Type} (c : BodyCodecs T) (contentType : String) :
    Except String (String → T → Except String T) :=
  if contentType = JsonEncoding then Except.ok c.json
  else
    match mget c.extra contentType with
    | some d => Except.ok d
    | none => Except.error "http: method or feature not supported"

/-- An error value returned by the user function, as classified by the
dynamic checks in `handler.handle` (src/api.go lines 321-333): it either
implements the `Problemer` capability, is itself a `*problem.Problem`, or
is any other error carrying only a message. -/
inductive UserErr where
  | problemer (p : Problem)
  | problemPtr (p : Problem)
  | other (msg : String)
deriving DecidableEq, Repr

/-- `handler.handle`'s error classification chain (src/api.go lines
321-333): a `Problemer`'s own problem view, else the error itself when it
is a problem, else the wrapped unexpected 500 problem. -/
def classify : UserErr → Problem
  | UserErr.problemer p => p
  | UserErr.problemPtr p => p
  | UserErr.other msg => Unexpected msg

/-- The optional response-customization capabilities of the payload type
`O`: `statusCode` is `some` exactly when `O` implements `StatusCoder`,
and `header` exactly when it implements `Headerer` (src/api.go lines
152-160 and the dynamic checks at lines 336-345). -/
structure Caps (O : Type) where
  statusCode : Option (O → Nat) := none
  header : Option (O → List (String × List String)) := none

/-- The generic handler adapter `handler[T, O]` (src/api.go lines
236-243) at its interface boundary: the bound configuration, the user
function, and the three optional per-source decoders resolved at wrap
time.  `tZero` models `new(T)` (the zero value of `T`), `codecs` the
body-codec registry behind `getDecoder`, `caps` the payload's dynamic
capabilities, and `encodeOk` whether the JSON encoder succeeds on a
payload value. -/
structure HandlerSpec (T O : Type) where
  config : Config
  tZero : T
  handler : Ctx → T → Except UserErr O
  decodeHeader : Option (HeaderMap → T → Except String T) := none
  decodeQuery : Option (QueryMap → T → Except String T) := none
  decodePath : Option (Params → T → Except String T) := none
  codecs : BodyCodecs T
  caps : Caps O := {}
  encodeOk : O → Bool := fun _ => true

/-- Observable events of one `handler.handle` run, in execution order:
hook invocations with their arguments, each decode phase that ran, the
user-function invocation with the context passed to it, and the problem
served (after enrichment). -/
inductive Ev where
  | routeLog (ctx : Ctx) (route : String) (vars : List (String × String))
  | decodeHeader
  | decodeQuery
  | decodePath
  | decodeBody
  | invoke (ctx : Ctx)
  | problemLog (ctx : Ctx) (p : Problem)
  | serveProblem (p : Problem)
deriving DecidableEq, Repr

/-- The pipeline phases named by the spec's state machine. -/
inductive Phase where
  | header
  | query
  | path
  | body
  | invoke
deriving DecidableEq, Repr

/-- The phase, if any, an event belongs to. -/
def phaseOf : Ev → Option Phase
  | Ev.decodeHeader => some Phase.header
  | Ev.decodeQuery => some Phase.query
  | Ev.decodePath => some Phase.path
  | Ev.decodeBody => some Phase.body
  | Ev.invoke _ => some Phase.invoke
  | _ => none

/-- The decode/invoke phases of a trace, in order. -/
def phases (evs : List Ev) : List Phase :=
  evs.filterMap phaseOf

/-- `httprouter`'s reserved key under which the matched route path is
saved when `SaveMatchedRoutePath` is set (the router is an external
collaborator; src/api.go line 46 turns the flag on). -/
def matchedRouteKey : String := "$matchedRoutePath"

/-- `Params.MatchedRoutePath()`: the value of the reserved parameter, or
the empty string when it is absent. -/
def matchedRoutePath (ps : Params) : String :=
  match ps.find? (fun q => q.1 = matchedRouteKey) with
  | some q => q.2
  | none => ""

/-- One iteration of the variables loop in `handler.handle` (src/api.go
lines 254-258): keep the captured parameter unless its value equals the
matched route path. -/
def routeStep (route : String) (m : List (String × String)) (q : String × String) :
    List (String × String) :=
  if q.2 ≠ route then mput m q.1 q.2 else m

/-- The route-variables map built by the logging prologue of
`handler.handle` (src/api.go lines 252-258): every captured parameter
whose value differs from the matched route path, inserted in order by Go
map assignment. -/
def routeVars (ps : Params) : List (String × String) :=
  let route := matchedRoutePath ps
  ps.foldl (routeStep route) []

/-- The `serveProblem` closure of `handler.handle` (src/api.go lines
262-268): enrich the problem, log it when the problem-log hook is set,
and serve it as problem-details JSON. -/
def serveProblemRun {O : Type} (cfg : Config) (ctx : Ctx) (pr : Problem) (w : RW O) :
    RW O × List Ev :=
  let pe := cfg.pc.Enrich ctx pr
  let evs := if cfg.hasProblemLog then [Ev.problemLog ctx pe] else []
  (pe.ServeJSON w, evs ++ [Ev.serveProblem pe])

/-- The body-decode block of `handler.handle` (src/api.go lines 304-316):
when the declared content length is positive, obtain the JSON decoder
(`getDecoder(JsonEncoding)`) and decode the body into the request value;
either failure short-circuits. -/
def runDecodesB {T O : Type} (h : HandlerSpec T O) (r : Request) (t : T) (evs : List Ev) :
    Except String T × List Ev :=
  if r.contentLength > 0 then
    match getDecoder h.codecs JsonEncoding with
    | Except.error e => (Except.error e, evs)
    | Except.ok dec =>
      match dec r.body t with
      | Except.error e => (Except.error e, evs ++ [Ev.decodeBody])
      | Except.ok t4 => (Except.ok t4, evs ++ [Ev.decodeBody])
  else (Except.ok t, evs)

/-- The path-params decode block of `handler.handle` (src/api.go lines
296-302), then the body block. -/
def runDecodesP {T O : Type} (h : HandlerSpec T O) (r : Request) (ps : Params) (t : T)
    (evs : List Ev) : Except String T × List Ev :=
  match h.decodePath with
  | some d =>
    if ps.length ≠ 0 then
      match d ps t with
      | Except.error e => (Except.error e, evs ++ [Ev.decodePath])
      | Except.ok t3 => runDecodesB h r t3 (evs ++ [Ev.decodePath])
    else runDecodesB h r t evs
  | none => runDecodesB h r t evs

/-- The query decode block of `handler.handle` (src/api.go lines
287-293), then the path and body blocks. -/
def runDecodesQ {T O : Type} (h : HandlerSpec T O) (r : Request) (ps : Params) (t : T)
    (evs : List Ev) : Except String T × List Ev :=
  match h.decodeQuery with
  | some d =>
    if r.rawQuery ≠ "" then
      match d r.query t with
      | Except.error e => (Except.error e, evs ++ [Ev.decodeQuery])
      | Except.ok t2 => runDecodesP h r ps t2 (evs ++ [Ev.decodeQuery])
    else runDecodesP h r ps t evs
  | none => runDecodesP h r ps t evs

/-- The full decode pipeline of `handler.handle` (src/api.go lines
275-316): allocate the zero request value, then run the header, query,
path and body blocks in order with fail-fast short-circuiting.  The
second component is the trace of phases that ran. -/
def runDecodes {T O : Type} (h : HandlerSpec T O) (r : Request) (ps : Params) :
    Except String T × List Ev :=
  match h.decodeHeader with
  | some d =>
    match d r.header h.tZero with
    | Except.error e => (Except.error e, [Ev.decodeHeader])
    | Except.ok t1 => runDecodesQ h r ps t1 [Ev.decodeHeader]
  | none => runDecodesQ h r ps h.tZero []

/-- The decode phases `handler.handle` will run on a given request, per
the guards in the source: header when a header decoder exists; query when
a query decoder exists and the raw query is non-empty; path when a path
decoder exists and at least one parameter was captured; body when the
declared content length is positive. -/
def applicablePhases {T O : Type} (h : HandlerSpec T O) (r : Request) (ps : Params) :
    List Phase :=
  (if h.decodeHeader.isSome then [Phase.header] else [])
    ++ (if h.decodeQuery.isSome ∧ r.rawQuery ≠ "" then [Phase.query] else [])
    ++ (if h.decodePath.isSome ∧ ps.length ≠ 0 then [Phase.path] else [])
    ++ (if r.contentLength > 0 then [Phase.body] else [])

/-- `handler.handle` (src/api.go lines 250-351): the full per-request
pipeline.  Route logging, the fail-fast decode chain (any failure is
served as a bad-request problem), user-function invocation, the
success-path content type, error classification, payload header merging
and status override, and payload encoding with the late encode-failure
problem. -/
def handle {T O : Type} (h : HandlerSpec T O) (r : Request) (ps : Params) :
    RW O × List Ev :=
  let evR : List Ev :=
    if h.config.hasRouteLog then
      [Ev.routeLog r.ctx (matchedRoutePath ps) (routeVars ps)]
    else []
  let d := runDecodes h r ps
  match d.1 with
  | Except.error e =>
    let s := serveProblemRun h.config r.ctx (BadRequest e) RW.empty
    (s.1, evR ++ d.2 ++ s.2)
  | Except.ok req =>
    let w1 : RW O := { (RW.empty : RW O) with header := mput (RW.empty : RW O).header contentTypeKey [jsonCharsetCT] }
    match h.handler r.ctx req with
    | Except.error err =>
      let s := serveProblemRun h.config r.ctx (classify err) w1
      (s.1, evR ++ d.2 ++ [Ev.invoke r.ctx] ++ s.2)
    | Except.ok res =>
      let w2 :=
        match h.caps.header with
        | some f => { w1 with header := List.foldl (fun m kv => mput m kv.1 kv.2) w1.header (f res) }
        | none => w1
      let w3 :=
        match h.caps.statusCode with
        | some f => RW.writeHeader w2 (f res)
        | none => w2
      if h.encodeOk res then
        (RW.writeChunk w3 (Chunk.payload res), evR ++ d.2 ++ [Ev.invoke r.ctx])
      else
        let s := serveProblemRun h.config r.ctx (Unexpected "encoder error") w3
        (s.1, evR ++ d.2 ++ [Ev.invoke r.ctx] ++ s.2)

/-- The japi lineage's `API.Router` middleware loop (src/api.go lines
66-71): iterate the registered middleware list in reverse, wrapping the
dispatch handler. -/
def japiRouterChain {H : Type} (mw : List (H → H)) (base : H) : H :=
  mw.reverse.foldl (fun h m => m h) base

/-- The minimal lineage's `API.Router` middleware loop
(src/problem/util.go second part, lines 104-107): iterate the registered
middleware list forward, wrapping the dispatch handler. -/
def minimalRouterChain {H : Type} (mw : List (H → H)) (base : H) : H :=
  mw.foldl (fun h m => m h) base

/-! ### Helper lemmas about the map model -/

theorem mget_mput {α : Type} (m : List (String × α)) (k : String) (v : α) (a : String) :
    mget (mput m k v) a = if k = a then some v else mget m a := by
  induction m with
  | nil =>
    by_cases hka : k = a <;> simp [mput, mget, hka]
  | cons kv rest ih =>
    obtain ⟨k', v'⟩ := kv
    by_cases hk : k' = k
    · subst hk
      by_cases hka : k' = a <;> simp [mput, mget, hka]
    · by_cases hka : k' = a
      · subst hka
        have hne : ¬ k = k' := fun hh => hk hh.symm
        simp [mput, mget, hk, hne]
      · simp [mput, mget, hk, hka, ih]

theorem mget_mput_self {α : Type} (m : List (String × α)) (k : String) (v : α) :
    mget (mput m k v) k = some v := by
  simp [mget_mput]

theorem mget_mput_ne {α : Type} (m : List (String × α)) (k : String) (v : α) (a : String)
    (h : k ≠ a) : mget (mput m k v) a = mget m a := by
  simp [mget_mput, h]

/-! ### Helper lemmas about the response writer and ServeJSON -/

theorem ServeJSON_body {O : Type} (pd : Problem) (w : RW O) :
    (pd.ServeJSON w).body = w.body ++ [Chunk.problem pd] := by
  by_cases hs : w.status.isSome <;>
    simp [Problem.ServeJSON, RW.writeHeader, RW.writeChunk, hs]

theorem ServeJSON_header {O : Type} (pd : Problem) (w : RW O) :
    (pd.ServeJSON w).header = mput w.header contentTypeKey [problemCT] := by
  by_cases hs : w.status.isSome <;>
    simp [Problem.ServeJSON, RW.writeHeader, RW.writeChunk, hs]

theorem ServeJSON_status_none {O : Type} (pd : Problem) (w : RW O)
    (h : w.status = none) : (pd.ServeJSON w).status = some pd.status := by
  simp [Problem.ServeJSON, RW.writeHeader, RW.writeChunk, h]

theorem ServeJSON_status_some {O : Type} (pd : Problem) (w : RW O) (s : Nat)
    (h : w.status = some s) : (pd.ServeJSON w).status = some s := by
  simp [Problem.ServeJSON, RW.writeHeader, RW.writeChunk, h]

theorem ServeJSON_status_isSome {O : Type} (pd : Problem) (w : RW O) :
    (pd.ServeJSON w).status.isSome := by
  cases hs : w.status with
  | none => simp [ServeJSON_status_none pd w hs]
  | some s => simp [ServeJSON_status_some pd w s hs]

/-! ### Helper lemmas about enrichment -/

theorem Enrich_status (cfg : ProblemConfig) (ctx : Ctx) (p : Problem) :
    (cfg.Enrich ctx p).status = p.status := by
  unfold ProblemConfig.Enrich
  cases cfg.ProblemInstanceFunc <;> split <;> rfl

theorem Enrich_detail (cfg : ProblemConfig) (ctx : Ctx) (p : Problem) :
    (cfg.Enrich ctx p).detail = p.detail := by
  unfold ProblemConfig.Enrich
  cases cfg.ProblemInstanceFunc <;> split <;> rfl

theorem Enrich_title (cfg : ProblemConfig) (ctx : Ctx) (p : Problem) :
    (cfg.Enrich ctx p).title = p.title := by
  unfold ProblemConfig.Enrich
  cases cfg.ProblemInstanceFunc <;> split <;> rfl

/-! ### Helper lemmas about traces -/

theorem phases_append (a b : List Ev) : phases (a ++ b) = phases a ++ phases b := by
  simp [phases]

theorem phases_routeEv (b : Bool) (c : Ctx) (rt : String) (vs : List (String × String)) :
    phases (if b then [Ev.routeLog c rt vs] else []) = [] := by
  cases b <;> simp [phases, phaseOf]

theorem phases_serveProblemRun {O : Type} (cfg : Config) (ctx : Ctx) (pr : Problem)
    (w : RW O) : phases (serveProblemRun cfg ctx pr w).2 = [] := by
  unfold serveProblemRun
  by_cases hb : cfg.hasProblemLog <;> simp [hb, phases, phaseOf]

theorem serveProblemRun_fst {O : Type} (cfg : Config) (ctx : Ctx) (pr : Problem)
    (w : RW O) : (serveProblemRun cfg ctx pr w).1 = (cfg.pc.Enrich ctx pr).ServeJSON w := rfl

theorem serveProblemRun_log {O : Type} (cfg : Config) (ctx : Ctx) (pr : Problem)
    (w : RW O) (h : cfg.hasProblemLog = true) :
    Ev.problemLog ctx (cfg.pc.Enrich ctx pr) ∈ (serveProblemRun cfg ctx pr w).2 := by
  simp [serveProblemRun, h]

theorem serveProblemRun_served {O : Type} (cfg : Config) (ctx : Ctx) (pr : Problem)
    (w : RW O) : Ev.serveProblem (cfg.pc.Enrich ctx pr) ∈ (serveProblemRun cfg ctx pr w).2 := by
  by_cases hb : cfg.hasProblemLog <;> simp [serveProblemRun, hb]

/-! ### Trace-shape lemmas for the decode pipeline -/

theorem runDecodesB_tail {T O : Type} (h : HandlerSpec T O) (r : Request) (t : T)
    (evs : List Ev) :
    ∃ tl, (runDecodesB h r t evs).2 = evs ++ tl ∧ (phases tl).Sublist [Phase.body] := by
  unfold runDecodesB
  split
  · split
    · exact ⟨[], by simp, by decide⟩
    · split
      · exact ⟨[Ev.decodeBody], by simp, by decide⟩
      · exact ⟨[Ev.decodeBody], by simp, by decide⟩
  · exact ⟨[], by simp, by decide⟩

theorem runDecodesP_tail {T O : Type} (h : HandlerSpec T O) (r : Request) (ps : Params)
    (t : T) (evs : List Ev) :
    ∃ tl, (runDecodesP h r ps t evs).2 = evs ++ tl ∧
      (phases tl).Sublist [Phase.path, Phase.body] := by
  unfold runDecodesP
  split
  · split
    · split
      · exact ⟨[Ev.decodePath], by simp, by decide⟩
      · rename_i t3 heq3
        obtain ⟨tl, htl, hsub⟩ := runDecodesB_tail h r t3 (evs ++ [Ev.decodePath])
        refine ⟨[Ev.decodePath] ++ tl, by simp [htl], ?_⟩
        have : phases ([Ev.decodePath] ++ tl) = Phase.path :: phases tl := by
          simp [phases_append, phases, phaseOf]
        rw [this]
        exact List.Sublist.cons₂ _ hsub
    · obtain ⟨tl, htl, hsub⟩ := runDecodesB_tail h r t evs
      exact ⟨tl, htl, hsub.trans (by decide)⟩
  · obtain ⟨tl, htl, hsub⟩ := runDecodesB_tail h r t evs
    exact ⟨tl, htl, hsub.trans (by decide)⟩

theorem runDecodesQ_tail {T O : Type} (h : HandlerSpec T O) (r : Request) (ps : Params)
    (t : T) (evs : List Ev) :
    ∃ tl, (runDecodesQ h r ps t evs).2 = evs ++ tl ∧
      (phases tl).Sublist [Phase.query, Phase.path, Phase.body] := by
  unfold runDecodesQ
  split
  · split
    · split
      · exact ⟨[Ev.decodeQuery], by simp, by decide⟩
      · rename_i t2 heq2
        obtain ⟨tl, htl, hsub⟩ := runDecodesP_tail h r ps t2 (evs ++ [Ev.decodeQuery])
        refine ⟨[Ev.decodeQuery] ++ tl, by simp [htl], ?_⟩
        have : phases ([Ev.decodeQuery] ++ tl) = Phase.query :: phases tl := by
          simp [phases_append, phases, phaseOf]
        rw [this]
        exact List.Sublist.cons₂ _ hsub
    · obtain ⟨tl, htl, hsub⟩ := runDecodesP_tail h r ps t evs
      exact ⟨tl, htl, hsub.trans (by decide)⟩
  · obtain ⟨tl, htl, hsub⟩ := runDecodesP_tail h r ps t evs
    exact ⟨tl, htl, hsub.trans (by decide)⟩

theorem runDecodes_sublist {T O : Type} (h : HandlerSpec T O) (r : Request) (ps : Params) :
    (phases (runDecodes h r ps).2).Sublist
      [Phase.header, Phase.query, Phase.path, Phase.body] := by
  unfold runDecodes
  split
  · split
    · simp only []
      have : phases [Ev.decodeHeader] = [Phase.header] := by decide
      simp [this, phases, phaseOf]
    · rename_i t1 heq1
      obtain ⟨tl, htl, hsub⟩ := runDecodesQ_tail h r ps t1 [Ev.decodeHeader]
      rw [htl]
      have : phases ([Ev.decodeHeader] ++ tl) = Phase.header :: phases tl := by
        simp [phases_append, phases, phaseOf]
      rw [this]
      exact List.Sublist.cons₂ _ hsub
  · obtain ⟨tl, htl, hsub⟩ := runDecodesQ_tail h r ps h.tZero []
    rw [htl]
    simp only [List.nil_append]
    exact hsub.trans (by decide)

theorem runDecodesB_ok {T O : Type} (h : HandlerSpec T O) (r : Request) (t t' : T)
    (evs : List Ev) (hok : (runDecodesB h r t evs).1 = Except.ok t') :
    (runDecodesB h r t evs).2 =
      evs ++ (if r.contentLength > 0 then [Ev.decodeBody] else []) := by
  by_cases hc : r.contentLength > 0
  · cases hg : getDecoder h.codecs JsonEncoding with
    | error e => simp [runDecodesB, hc, hg] at hok
    | ok dec =>
      cases hd : dec r.body t with
      | error e => simp [runDecodesB, hc, hg, hd] at hok
      | ok t4 => simp [runDecodesB, hc, hg, hd]
  · simp [runDecodesB, hc]

theorem runDecodesP_ok {T O : Type} (h : HandlerSpec T O) (r : Request) (ps : Params)
    (t t' : T) (evs : List Ev) (hok : (runDecodesP h r ps t evs).1 = Except.ok t') :
    (runDecodesP h r ps t evs).2 =
      evs ++ (if h.decodePath.isSome ∧ ps.length ≠ 0 then [Ev.decodePath] else [])
        ++ (if r.contentLength > 0 then [Ev.decodeBody] else []) := by
  cases hp : h.decodePath with
  | none =>
    have hok' : (runDecodesB h r t evs).1 = Except.ok t' := by
      simpa [runDecodesP, hp] using hok
    simp [runDecodesP, hp, runDecodesB_ok h r t t' evs hok', List.append_assoc]
  | some d =>
    by_cases hl : ps.length ≠ 0
    · cases hd : d ps t with
      | error e => simp [runDecodesP, hp, hl, hd] at hok
      | ok t3 =>
        have hok' : (runDecodesB h r t3 (evs ++ [Ev.decodePath])).1 = Except.ok t' := by
          simpa [runDecodesP, hp, hl, hd] using hok
        simp [runDecodesP, hp, hl, hd,
          runDecodesB_ok h r t3 t' (evs ++ [Ev.decodePath]) hok', List.append_assoc]
    · have hok' : (runDecodesB h r t evs).1 = Except.ok t' := by
        simpa [runDecodesP, hp, hl] using hok
      simp [runDecodesP, hp, hl, runDecodesB_ok h r t t' evs hok', List.append_assoc]

theorem runDecodesQ_ok {T O : Type} (h : HandlerSpec T O) (r : Request) (ps : Params)
    (t t' : T) (evs : List Ev) (hok : (runDecodesQ h r ps t evs).1 = Except.ok t') :
    (runDecodesQ h r ps t evs).2 =
      evs ++ (if h.decodeQuery.isSome ∧ r.rawQuery ≠ "" then [Ev.decodeQuery] else [])
        ++ (if h.decodePath.isSome ∧ ps.length ≠ 0 then [Ev.decodePath] else [])
        ++ (if r.contentLength > 0 then [Ev.decodeBody] else []) := by
  cases hq : h.decodeQuery with
  | none =>
    have hok' : (runDecodesP h r ps t evs).1 = Except.ok t' := by
      simpa [runDecodesQ, hq] using hok
    simp [runDecodesQ, hq, runDecodesP_ok h r ps t t' evs hok', List.append_assoc]
  | some d =>
    by_cases hr : r.rawQuery ≠ ""
    · cases hd : d r.query t with
      | error e => simp [runDecodesQ, hq, hr, hd] at hok
      | ok t2 =>
        have hok' : (runDecodesP h r ps t2 (evs ++ [Ev.decodeQuery])).1 = Except.ok t' := by
          simpa [runDecodesQ, hq, hr, hd] using hok
        simp [runDecodesQ, hq, hr, hd,
          runDecodesP_ok h r ps t2 t' (evs ++ [Ev.decodeQuery]) hok', List.append_assoc]
    · have hok' : (runDecodesP h r ps t evs).1 = Except.ok t' := by
        simpa [runDecodesQ, hq, hr] using hok
      simp [runDecodesQ, hq, hr, runDecodesP_ok h r ps t t' evs hok', List.append_assoc]

theorem runDecodes_ok_trace {T O : Type} (h : HandlerSpec T O) (r : Request) (ps : Params)
    (t' : T) (hok : (runDecodes h r ps).1 = Except.ok t') :
    (runDecodes h r ps).2 =
      (if h.decodeHeader.isSome then [Ev.decodeHeader] else [])
        ++ (if h.decodeQuery.isSome ∧ r.rawQuery ≠ "" then [Ev.decodeQuery] else [])
        ++ (if h.decodePath.isSome ∧ ps.length ≠ 0 then [Ev.decodePath] else [])
        ++ (if r.contentLength > 0 then [Ev.decodeBody] else []) := by
  cases hh : h.decodeHeader with
  | none =>
    have hok' : (runDecodesQ h r ps h.tZero []).1 = Except.ok t' := by
      simpa [runDecodes, hh] using hok
    simp [runDecodes, hh, runDecodesQ_ok h r ps h.tZero t' [] hok', List.append_assoc]
  | some d =>
    cases hd : d r.header h.tZero with
    | error e => simp [runDecodes, hh, hd] at hok
    | ok t1 =>
      have hok' : (runDecodesQ h r ps t1 [Ev.decodeHeader]).1 = Except.ok t' := by
        simpa [runDecodes, hh, hd] using hok
      simp [runDecodes, hh, hd,
        runDecodesQ_ok h r ps t1 t' [Ev.decodeHeader] hok', List.append_assoc]

theorem phases_if_single (c : Prop) [Decidable c] (e : Ev) (ph : Phase)
    (he : phaseOf e = some ph) :
    phases (if c then [e] else []) = (if c then [ph] else []) := by
  split <;> simp [phases, he]

theorem runDecodes_ok_phases {T O : Type} (h : HandlerSpec T O) (r : Request) (ps : Params)
    (t' : T) (hok : (runDecodes h r ps).1 = Except.ok t') :
    phases (runDecodes h r ps).2 = applicablePhases h r ps := by
  rw [runDecodes_ok_trace h r ps t' hok]
  rw [phases_append, phases_append, phases_append]
  rw [phases_if_single _ Ev.decodeHeader Phase.header rfl]
  rw [phases_if_single _ Ev.decodeQuery Phase.query rfl]
  rw [phases_if_single _ Ev.decodePath Phase.path rfl]
  rw [phases_if_single _ Ev.decodeBody Phase.body rfl]
  rfl

/-! ### Trace shape of a full handle run -/

theorem handle_phases_error {T O : Type} (h : HandlerSpec T O) (r : Request) (ps : Params)
    (e : String) (hE : (runDecodes h r ps).1 = Except.error e) :
    phases (handle h r ps).2 = phases (runDecodes h r ps).2 := by
  simp [handle, hE, phases_append, phases_routeEv, phases_serveProblemRun]

theorem phases_invoke (c : Ctx) : phases [Ev.invoke c] = [Phase.invoke] := rfl

theorem phases_nil : phases [] = [] := rfl

theorem phases_invoke_cons (c : Ctx) (evs : List Ev) :
    phases (Ev.invoke c :: evs) = Phase.invoke :: phases evs := by
  simp [phases, phaseOf]

theorem handle_phases_ok {T O : Type} (h : HandlerSpec T O) (r : Request) (ps : Params)
    (req : T) (hok : (runDecodes h r ps).1 = Except.ok req) :
    phases (handle h r ps).2 = phases (runDecodes h r ps).2 ++ [Phase.invoke] := by
  cases hh : h.handler r.ctx req with
  | error err =>
    simp [handle, hok, hh, phases_append, phases_routeEv, phases_serveProblemRun,
      phases_invoke, phases_invoke_cons]
  | ok res =>
    by_cases henc : h.encodeOk res <;>
      simp [handle, hok, hh, henc, phases_append, phases_routeEv, phases_serveProblemRun,
        phases_invoke, phases_invoke_cons, phases_nil]

theorem handle_phases_sublist {T O : Type} (h : HandlerSpec T O) (r : Request) (ps : Params) :
    (phases (handle h r ps).2).Sublist
      [Phase.header, Phase.query, Phase.path, Phase.body, Phase.invoke] := by
  cases hE : (runDecodes h r ps).1 with
  | error e =>
    rw [handle_phases_error h r ps e hE]
    exact (runDecodes_sublist h r ps).trans (by decide)
  | ok req =>
    rw [handle_phases_ok h r ps req hE]
    have hfour : ([Phase.header, Phase.query, Phase.path, Phase.body] ++ [Phase.invoke])
        = [Phase.header, Phase.query, Phase.path, Phase.body, Phase.invoke] := by decide
    rw [← hfour]
    exact List.Sublist.append (runDecodes_sublist h r ps) (List.Sublist.refl _)

theorem handle_invoke_after_applicable {T O : Type} (h : HandlerSpec T O) (r : Request)
    (ps : Params) (hmem : Phase.invoke ∈ phases (handle h r ps).2) :
    phases (handle h r ps).2 = applicablePhases h r ps ++ [Phase.invoke] := by
  cases hE : (runDecodes h r ps).1 with
  | error e =>
    rw [handle_phases_error h r ps e hE] at hmem
    have hsub := (runDecodes_sublist h r ps).subset hmem
    exact absurd hsub (by decide)
  | ok req =>
    rw [handle_phases_ok h r ps req hE, runDecodes_ok_phases h r ps req hE]

/-- The claim C1 theorem.  For every request where the header decode phase
fails, the adapter serves a 400 bad-request problem carrying the decode
error as detail and stops: the only pipeline phase that ran is the header
decode (no query, path, or body decoding, and no user-function
invocation); and in general the phases of any run occur in the strict
order header, query, path, body, invoke, with the user function invoked
only after all applicable decode phases succeeded. -/
theorem handle_header_failfast_order {T O : Type} (h : HandlerSpec T O) (r : Request)
    (ps : Params) (d : HeaderMap → T → Except String T) (e : String)
    (hd : h.decodeHeader = some d) (hfail : d r.header h.tZero = Except.error e) :
    (handle h r ps).1.status = some 400
    ∧ (∃ pr, (handle h r ps).1.body = [Chunk.problem pr]
        ∧ pr.status = 400 ∧ pr.detail = e)
    ∧ phases (handle h r ps).2 = [Phase.header]
    ∧ (∀ r' : Request, ∀ ps' : Params, (phases (handle h r' ps').2).Sublist
        [Phase.header, Phase.query, Phase.path, Phase.body, Phase.invoke])
    ∧ (∀ r' : Request, ∀ ps' : Params, Phase.invoke ∈ phases (handle h r' ps').2 →
        phases (handle h r' ps').2 = applicablePhases h r' ps' ++ [Phase.invoke]) := by
  have hrd : runDecodes h r ps = (Except.error e, [Ev.decodeHeader]) := by
    simp [runDecodes, hd, hfail]
  have hfst : (handle h r ps).1
      = (h.config.pc.Enrich r.ctx (BadRequest e)).ServeJSON RW.empty := by
    simp [handle, hrd, serveProblemRun_fst]
  refine ⟨?_, ⟨h.config.pc.Enrich r.ctx (BadRequest e), ?_, ?_, ?_⟩, ?_, ?_, ?_⟩
  · rw [hfst, ServeJSON_status_none _ _ rfl, Enrich_status]
    rfl
  · rw [hfst, ServeJSON_body]
    rfl
  · rw [Enrich_status]
    rfl
  · rw [Enrich_detail]
    rfl
  · rw [handle_phases_error h r ps e (by rw [hrd])]
    rw [hrd]
    rfl
  · intro r' ps'
    exact handle_phases_sublist h r' ps'
  · intro r' ps' hmem
    exact handle_invoke_after_applicable h r' ps' hmem

/-- Concrete header decoder used by the C1 witness: always fails. -/
def decC1 : HeaderMap → Nat → Except String Nat := fun _ _ => Except.error "bad header"

/-- A body-codec registry whose JSON codec accepts everything; used by
concrete witness instances. -/
def codecsOk : BodyCodecs Nat := { json := fun _ t => Except.ok t }

/-- Concrete adapter for the C1 witness. -/
def hC1 : HandlerSpec Nat Nat :=
  { config := {}, tZero := 0, handler := fun _ t => Except.ok t,
    decodeHeader := some decC1, codecs := codecsOk }

/-- Concrete request for the C1 witness. -/
def rC1 : Request := {}

/-- Witness for the C1 theorem: a concrete adapter whose header decoder
fails serves status 400. -/
theorem handle_header_failfast_order_witness :
    hC1.decodeHeader = some decC1
    ∧ decC1 rC1.header hC1.tZero = Except.error "bad header"
    ∧ (handle hC1 rC1 []).1.status = some 400 :=
  ⟨rfl, rfl, (handle_header_failfast_order hC1 rC1 [] decC1 "bad header" rfl rfl).1⟩

/-! ### Header-merge lemmas for the success path -/

theorem mergeFold_not_mem {α : Type} (hdrs : List (String × α)) (base : List (String × α))
    (k : String) (hk : k ∉ hdrs.map Prod.fst) :
    mget (hdrs.foldl (fun m kv => mput m kv.1 kv.2) base) k = mget base k := by
  induction hdrs generalizing base with
  | nil => rfl
  | cons kv rest ih =>
    obtain ⟨k1, v1⟩ := kv
    simp only [List.map_cons, List.mem_cons, not_or] at hk
    obtain ⟨hk1, hkrest⟩ := hk
    rw [List.foldl_cons]
    rw [ih (mput base k1 v1) hkrest]
    exact mget_mput_ne base k1 v1 k (fun hh => hk1 hh.symm)

theorem mergeFold_mem {α : Type} (hdrs : List (String × α)) (base : List (String × α)) :
    (hdrs.map Prod.fst).Nodup → ∀ (k : String) (v : α), (k, v) ∈ hdrs →
      mget (hdrs.foldl (fun m kv => mput m kv.1 kv.2) base) k = some v := by
  induction hdrs generalizing base with
  | nil =>
    intro _ k v hin
    cases hin
  | cons kv rest ih =>
    intro hnd k v hin
    obtain ⟨k1, v1⟩ := kv
    simp only [List.map_cons, List.nodup_cons] at hnd
    obtain ⟨hk1, hndrest⟩ := hnd
    rw [List.foldl_cons]
    rcases List.mem_cons.mp hin with heq | hmem
    · have hk : k = k1 := congrArg Prod.fst heq
      have hv : v = v1 := congrArg Prod.snd heq
      subst hk
      subst hv
      rw [mergeFold_not_mem rest (mput base k v) k hk1]
      exact mget_mput_self base k v
    · exact ih (mput base k1 v1) hndrest k v hmem

/-- The claim C2 theorem.  For every request whose decoding succeeds and
whose user function returns a non-error payload that the encoder accepts,
the response body is the encoding of that payload, the status line is the
payload's `StatusCode()` override when it implements `StatusCoder` and
the transport default 200 otherwise, and when the payload implements
`Headerer` its headers are merged into the response headers with the
payload's values winning on key collision arbitrary keys keeping their
prior value. -/
theorem handle_success_response {T O : Type} (h : HandlerSpec T O) (r : Request)
    (ps : Params) (req : T) (res : O)
    (hdec : (runDecodes h r ps).1 = Except.ok req)
    (hh : h.handler r.ctx req = Except.ok res)
    (henc : h.encodeOk res = true) :
    (∀ f, h.caps.statusCode = some f → (handle h r ps).1.status = some (f res))
    ∧ (h.caps.statusCode = none → (handle h r ps).1.status = some 200)
    ∧ (handle h r ps).1.body = [Chunk.payload res]
    ∧ (h.caps.header = none →
        (handle h r ps).1.header = mput [] contentTypeKey [jsonCharsetCT])
    ∧ (∀ f, h.caps.header = some f → ((f res).map Prod.fst).Nodup →
        (∀ k v, (k, v) ∈ f res → mget (handle h r ps).1.header k = some v)
        ∧ (∀ k, k ∉ (f res).map Prod.fst →
            mget (handle h r ps).1.header k = mget (mput [] contentTypeKey [jsonCharsetCT]) k)) := by
  refine ⟨?_, ?_, ?_, ?_, ?_⟩
  · intro f hf
    cases hhd : h.caps.header <;>
      simp [handle, hdec, hh, henc, hf, hhd, RW.writeHeader, RW.writeChunk, RW.empty]
  · intro hnone
    cases hhd : h.caps.header <;>
      simp [handle, hdec, hh, henc, hnone, hhd, RW.writeHeader, RW.writeChunk, RW.empty]
  · cases hsc : h.caps.statusCode <;> cases hhd : h.caps.header <;>
      simp [handle, hdec, hh, henc, hsc, hhd, RW.writeHeader, RW.writeChunk, RW.empty]
  · intro hnone
    cases hsc : h.caps.statusCode <;>
      simp [handle, hdec, hh, henc, hsc, hnone, RW.writeHeader, RW.writeChunk, RW.empty]
  · intro g hg hnd
    have hhdr : (handle h r ps).1.header
        = (g res).foldl (fun m kv => mput m kv.1 kv.2) (mput [] contentTypeKey [jsonCharsetCT]) := by
      cases hsc : h.caps.statusCode <;>
        simp [handle, hdec, hh, henc, hsc, hg, RW.writeHeader, RW.writeChunk, RW.empty]
    constructor
    · intro k v hin
      rw [hhdr]
      exact mergeFold_mem (g res) _ hnd k v hin
    · intro k hk
      rw [hhdr]
      exact mergeFold_not_mem (g res) _ k hk

/-- Concrete payload capabilities for the C2 witness: a 201 status
override and one custom header. -/
def capsC2 : Caps Nat :=
  { statusCode := some (fun _ => 201), header := some (fun _ => [("X-Foo", ["bar"])]) }

/-- Concrete adapter for the C2 witness. -/
def hC2 : HandlerSpec Nat Nat :=
  { config := {}, tZero := 0, handler := fun _ t => Except.ok (t + 1),
    codecs := codecsOk, caps := capsC2 }

/-- Concrete request for the C2 witness. -/
def rC2 : Request := {}

/-- Witness for the C2 theorem: with all decoders absent, a user function
returning 1 and a 201 status override, the concrete run serves 201 with
the payload as body. -/
theorem handle_success_response_witness :
    (runDecodes hC2 rC2 []).1 = Except.ok 0
    ∧ hC2.handler rC2.ctx 0 = Except.ok 1
    ∧ hC2.encodeOk 1 = true
    ∧ (handle hC2 rC2 []).1.status = some 201
    ∧ (handle hC2 rC2 []).1.body = [Chunk.payload 1] :=
  ⟨rfl, rfl, rfl,
    (handle_success_response hC2 rC2 [] 0 1 rfl rfl rfl).1 (fun _ => 201) rfl,
    (handle_success_response hC2 rC2 [] 0 1 rfl rfl rfl).2.2.1⟩

/-- The claim C3 theorem.  For every user-function error the served
problem is the enrichment of the classification chain's result: a
`Problemer`'s own problem view, else the error itself when it is a
problem, else the unexpected 500 wrapper; the response status line is
that problem's status, the problem-log hook observes the enriched
problem when set, the enriched problem is served, and no success payload
is written. -/
theorem handle_user_error_classified {T O : Type} (h : HandlerSpec T O) (r : Request)
    (ps : Params) (req : T) (err : UserErr)
    (hdec : (runDecodes h r ps).1 = Except.ok req)
    (hh : h.handler r.ctx req = Except.error err) :
    (handle h r ps).1.body = [Chunk.problem (h.config.pc.Enrich r.ctx (classify err))]
    ∧ (handle h r ps).1.status = some (classify err).status
    ∧ (∀ p, err = UserErr.problemer p → classify err = p)
    ∧ (∀ p, err = UserErr.problemPtr p → classify err = p)
    ∧ (∀ m, err = UserErr.other m →
        classify err = Unexpected m ∧ (classify err).status = 500)
    ∧ (h.config.hasProblemLog = true →
        Ev.problemLog r.ctx (h.config.pc.Enrich r.ctx (classify err)) ∈ (handle h r ps).2)
    ∧ Ev.serveProblem (h.config.pc.Enrich r.ctx (classify err)) ∈ (handle h r ps).2
    ∧ (∀ o : O, Chunk.payload o ∉ (handle h r ps).1.body) := by
  have hfst : (handle h r ps).1
      = (h.config.pc.Enrich r.ctx (classify err)).ServeJSON
          { (RW.empty : RW O) with
            header := mput (RW.empty : RW O).header contentTypeKey [jsonCharsetCT] } := by
    simp [handle, hdec, hh, serveProblemRun_fst]
  have hbody : (handle h r ps).1.body
      = [Chunk.problem (h.config.pc.Enrich r.ctx (classify err))] := by
    rw [hfst, ServeJSON_body]
    rfl
  refine ⟨hbody, ?_, ?_, ?_, ?_, ?_, ?_, ?_⟩
  · rw [hfst, ServeJSON_status_none _ _ rfl, Enrich_status]
  · intro p hp
    subst hp
    rfl
  · intro p hp
    subst hp
    rfl
  · intro m hm
    subst hm
    exact ⟨rfl, rfl⟩
  · intro hlog
    simp [handle, hdec, hh, serveProblemRun, hlog]
  · by_cases hlog : h.config.hasProblemLog <;>
      simp [handle, hdec, hh, serveProblemRun, hlog]
  · intro o
    rw [hbody]
    simp

/-- Concrete adapter for the C3 witness: the user function fails with a
plain error. -/
def hC3 : HandlerSpec Nat Nat :=
  { config := { hasProblemLog := true }, tZero := 0,
    handler := fun _ _ => Except.error (UserErr.other "boom"), codecs := codecsOk }

/-- Concrete request for the C3 witness. -/
def rC3 : Request := {}

/-- Witness for the C3 theorem: a plain user error is served as the 500
unexpected problem. -/
theorem handle_user_error_classified_witness :
    (runDecodes hC3 rC3 []).1 = Except.ok 0
    ∧ hC3.handler rC3.ctx 0 = Except.error (UserErr.other "boom")
    ∧ (handle hC3 rC3 []).1.status = some 500 :=
  ⟨rfl, rfl, by
    have hth := (handle_user_error_classified hC3 rC3 [] 0 (UserErr.other "boom") rfl rfl).2.1
    simpa [classify, Unexpected] using hth⟩

/-- A response body holding exactly one chunk never holds both a problem
and a payload. -/
theorem singleton_chunk_excl {O : Type} (b : List (Chunk O)) (c : Chunk O) (hb : b = [c]) :
    ∀ pr (o : O), ¬(Chunk.problem pr ∈ b ∧ Chunk.payload o ∈ b) := by
  intro pr o hand
  obtain ⟨h1, h2⟩ := hand
  rw [hb] at h1 h2
  simp at h1 h2
  rw [← h1] at h2
  cases h2

/-- The claim C4 theorem.  For every request handled by the adapter the
response is always written: the status line is committed, the body holds
exactly one serialized document, that document is either a problem (the
error-respond path) or the payload (the success-respond path), and never
do a problem and a success payload both appear in one response. -/
theorem handle_single_response {T O : Type} (h : HandlerSpec T O) (r : Request)
    (ps : Params) :
    (handle h r ps).1.status.isSome = true
    ∧ (∃ c, (handle h r ps).1.body = [c]
        ∧ ((∃ pr, c = Chunk.problem pr) ∨ (∃ o, c = Chunk.payload o)))
    ∧ (∀ pr (o : O), ¬(Chunk.problem pr ∈ (handle h r ps).1.body
        ∧ Chunk.payload o ∈ (handle h r ps).1.body)) := by
  obtain ⟨c, hbody, hkind, hstat⟩ :
      ∃ c, (handle h r ps).1.body = [c]
        ∧ ((∃ pr, c = Chunk.problem pr) ∨ (∃ o, c = Chunk.payload o))
        ∧ (handle h r ps).1.status.isSome = true := by
    cases hE : (runDecodes h r ps).1 with
    | error e =>
      have hfst : (handle h r ps).1
          = (h.config.pc.Enrich r.ctx (BadRequest e)).ServeJSON RW.empty := by
        simp [handle, hE, serveProblemRun_fst]
      refine ⟨Chunk.problem (h.config.pc.Enrich r.ctx (BadRequest e)), ?_, Or.inl ⟨_, rfl⟩, ?_⟩
      · rw [hfst, ServeJSON_body]
        rfl
      · rw [hfst]
        exact ServeJSON_status_isSome _ _
    | ok req =>
      cases hh : h.handler r.ctx req with
      | error err =>
        have hfst : (handle h r ps).1
            = (h.config.pc.Enrich r.ctx (classify err)).ServeJSON
                { (RW.empty : RW O) with
                  header := mput (RW.empty : RW O).header contentTypeKey [jsonCharsetCT] } := by
          simp [handle, hE, hh, serveProblemRun_fst]
        refine ⟨Chunk.problem (h.config.pc.Enrich r.ctx (classify err)), ?_, Or.inl ⟨_, rfl⟩, ?_⟩
        · rw [hfst, ServeJSON_body]
          rfl
        · rw [hfst]
          exact ServeJSON_status_isSome _ _
      | ok res =>
        by_cases henc : h.encodeOk res = true
        · refine ⟨Chunk.payload res, ?_, Or.inr ⟨_, rfl⟩, ?_⟩ <;>
            cases hsc : h.caps.statusCode <;> cases hhd : h.caps.header <;>
              simp [handle, hE, hh, henc, hsc, hhd, RW.writeHeader, RW.writeChunk, RW.empty]
        · refine ⟨Chunk.problem (h.config.pc.Enrich r.ctx (Unexpected "encoder error")),
            ?_, Or.inl ⟨_, rfl⟩, ?_⟩ <;>
            cases hsc : h.caps.statusCode <;> cases hhd : h.caps.header <;>
              simp [handle, hE, hh, henc, hsc, hhd, serveProblemRun_fst, Problem.ServeJSON,
                RW.writeHeader, RW.writeChunk, RW.empty]
  exact ⟨hstat, ⟨c, hbody, hkind⟩, singleton_chunk_excl _ c hbody⟩

/-- The C5 amended theorem.  For every problem served on a response whose
status line is not yet committed — which covers every decode-failure and
user-error response — the status written by `ServeJSON` is exactly the
problem's `status` field, and the serialized problem document in the body
carries that same field. -/
theorem serveJSON_status_uncommitted {O : Type} (pd : Problem) (w : RW O)
    (hw : w.status = none) :
    (pd.ServeJSON w).status = some pd.status
    ∧ (pd.ServeJSON w).body = w.body ++ [Chunk.problem pd] :=
  ⟨ServeJSON_status_none pd w hw, ServeJSON_body pd w⟩

/-- Concrete problem for the C5 witness. -/
def pdC5 : Problem := { ptype := "not-found", title := "Not Found", status := 404 }

/-- Witness for the C5 amended theorem on a fresh response. -/
theorem serveJSON_status_uncommitted_witness :
    (RW.empty : RW Nat).status = none
    ∧ (pdC5.ServeJSON (RW.empty : RW Nat)).status = some 404 :=
  ⟨rfl, (serveJSON_status_uncommitted pdC5 (RW.empty : RW Nat) rfl).1⟩

/-- Concrete payload capabilities for the C5 counterexample: a 418 status
override. -/
def capsC5 : Caps Nat := { statusCode := some (fun _ => 418) }

/-- Concrete adapter for the C5 counterexample: the payload encoder
fails after the override status was already committed. -/
def hC5 : HandlerSpec Nat Nat :=
  { config := {}, tZero := 0, handler := fun _ t => Except.ok t,
    codecs := codecsOk, caps := capsC5, encodeOk := fun _ => false }

/-- Concrete request for the C5 counterexample. -/
def rC5 : Request := {}

/-- The C5 counterexample.  When the payload's `StatusCode()` override
has already committed the status line (here 418) and the payload encoder
then fails, `handler.handle` serves the unexpected problem whose body
says status 500 while the response status line remains 418 — so the
serialized `status` field does not always equal the written status
line. -/
theorem serveJSON_status_counterexample :
    (handle hC5 rC5 []).1.status = some 418
    ∧ (handle hC5 rC5 []).1.body = [Chunk.problem (Unexpected "encoder error")]
    ∧ (Unexpected "encoder error").status = 500
    ∧ (418 : Nat) ≠ 500 :=
  ⟨rfl, rfl, rfl, by decide⟩

/-- The C6 amended theorem.  The body codec is never selected by the
request's declared content type: `handler.handle` always asks the
registry for the mandatory JSON codec (so the lookup always succeeds),
the whole run is invariant under changing the declared content type, and
the only body-phase failure is a JSON decode failure, which is served as
a 400 bad-request problem without invoking the user function. -/
theorem body_codec_json_always {T O : Type} :
    (∀ (c : BodyCodecs T), getDecoder c JsonEncoding = Except.ok c.json)
    ∧ (∀ (h : HandlerSpec T O) (r : Request) (ps : Params) (ct : String),
        handle h r ps = handle h { r with contentType := ct } ps)
    ∧ (∀ (h : HandlerSpec T O) (r : Request) (ps : Params) (e : String),
        (runDecodes h r ps).1 = Except.error e →
          (handle h r ps).1.status = some 400
          ∧ (∃ pr, (handle h r ps).1.body = [Chunk.problem pr] ∧ pr.status = 400)
          ∧ Phase.invoke ∉ phases (handle h r ps).2) := by
  refine ⟨?_, ?_, ?_⟩
  · intro c
    simp [getDecoder]
  · intro h r ps ct
    rfl
  · intro h r ps e hE
    have hfst : (handle h r ps).1
        = (h.config.pc.Enrich r.ctx (BadRequest e)).ServeJSON RW.empty := by
      simp [handle, hE, serveProblemRun_fst]
    refine ⟨?_, ⟨h.config.pc.Enrich r.ctx (BadRequest e), ?_, ?_⟩, ?_⟩
    · rw [hfst, ServeJSON_status_none _ _ rfl, Enrich_status]
      rfl
    · rw [hfst, ServeJSON_body]
      rfl
    · rw [Enrich_status]
      rfl
    · intro hmem
      rw [handle_phases_error h r ps e hE] at hmem
      have hsub := (runDecodes_sublist h r ps).subset hmem
      exact absurd hsub (by decide)

/-- Concrete adapter for the C6 counterexample: no per-source decoders, a
JSON codec that accepts the body, and a user function adding 41. -/
def hC6 : HandlerSpec Nat Nat :=
  { config := {}, tZero := 0, handler := fun _ t => Except.ok (t + 41),
    codecs := codecsOk }

/-- Concrete request for the C6 counterexample: positive content length
and a declared content type no codec is registered for. -/
def rC6 : Request := { contentLength := 5, contentType := "text/csv", body := "{}" }

/-- The C6 counterexample.  A request with positive content length whose
declared content type is unsupported by the codec registry is NOT served
a 4xx problem: the adapter never consults the declared content type
(`getDecoder` is called with the JSON constant), decodes the body with
the JSON codec, invokes the user function and answers 200 with the
payload. -/
theorem body_codec_counterexample :
    rC6.contentLength > 0
    ∧ rC6.contentType = "text/csv"
    ∧ getDecoder hC6.codecs rC6.contentType
        = Except.error "http: method or feature not supported"
    ∧ Ev.invoke rC6.ctx ∈ (handle hC6 rC6 []).2
    ∧ (handle hC6 rC6 []).1.status = some 200
    ∧ (handle hC6 rC6 []).1.body = [Chunk.payload 41] :=
  ⟨by decide, rfl, rfl, by decide, rfl, rfl⟩

/-- Concrete adapter for the C6 witness: the JSON codec rejects the
body. -/
def hC6w : HandlerSpec Nat Nat :=
  { config := {}, tZero := 0, handler := fun _ t => Except.ok t,
    codecs := { json := fun _ _ => Except.error "invalid json" } }

/-- Concrete request for the C6 witness. -/
def rC6w : Request := { contentLength := 3, body := "xx" }

/-- Witness for the C6 amended theorem: a failing JSON body decode is
answered with 400, and the mandatory JSON lookup succeeds. -/
theorem body_codec_json_always_witness :
    (runDecodes hC6w rC6w []).1 = Except.error "invalid json"
    ∧ (handle hC6w rC6w []).1.status = some 400
    ∧ getDecoder codecsOk JsonEncoding = Except.ok codecsOk.json :=
  ⟨rfl,
    ((body_codec_json_always (T := Nat) (O := Nat)).2.2 hC6w rC6w [] "invalid json" rfl).1,
    (body_codec_json_always (T := Nat) (O := Nat)).1 codecsOk⟩

/-- The C7 amended theorem.  A second `Enrich` of a problem whose type is
the blank sentinel or already starts with `http` changes nothing (and a
first one leaves the type untouched); a non-blank, non-`http` type is
rewritten through the format template; and the format is re-applied on a
second `Enrich` exactly when the once-enriched type is still non-blank
and non-`http` — so when one application already produces an absolute
type, `Enrich` is idempotent on non-absolute inputs too. -/
theorem enrich_type_rewrite :
    (∀ (cfg : ProblemConfig) (ctx : Ctx) (p : Problem),
        (p.ptype = aboutBlank ∨ strStarts p.ptype httpScheme = true) →
          cfg.Enrich ctx (cfg.Enrich ctx p) = cfg.Enrich ctx p
          ∧ (cfg.Enrich ctx p).ptype = p.ptype)
    ∧ (∀ (cfg : ProblemConfig) (ctx : Ctx) (p : Problem),
        cfg.ProblemTypeUrlFormat ≠ "" →
        ¬(p.ptype = aboutBlank ∨ strStarts p.ptype httpScheme = true) →
          (cfg.Enrich ctx p).ptype = sprintf1 cfg.ProblemTypeUrlFormat p.ptype)
    ∧ (∀ (cfg : ProblemConfig) (ctx : Ctx) (p : Problem),
        cfg.ProblemTypeUrlFormat ≠ "" →
        ¬((cfg.Enrich ctx p).ptype = aboutBlank
            ∨ strStarts (cfg.Enrich ctx p).ptype httpScheme = true) →
          (cfg.Enrich ctx (cfg.Enrich ctx p)).ptype
            = sprintf1 cfg.ProblemTypeUrlFormat (cfg.Enrich ctx p).ptype) := by
  have hb : ∀ (cfg : ProblemConfig) (ctx : Ctx) (p : Problem),
      cfg.ProblemTypeUrlFormat ≠ "" →
      ¬(p.ptype = aboutBlank ∨ strStarts p.ptype httpScheme = true) →
        (cfg.Enrich ctx p).ptype = sprintf1 cfg.ProblemTypeUrlFormat p.ptype := by
    intro cfg ctx p hfmt hncond
    have h2 : p.ptype ≠ aboutBlank := fun hb' => hncond (Or.inl hb')
    have h3 : strStarts p.ptype httpScheme = false := by
      cases hs : strStarts p.ptype httpScheme with
      | true => exact absurd (Or.inr hs) hncond
      | false => rfl
    have hcondT : cfg.ProblemTypeUrlFormat ≠ "" ∧ p.ptype ≠ aboutBlank
        ∧ strStarts p.ptype httpScheme = false := ⟨hfmt, h2, h3⟩
    cases hfi : cfg.ProblemInstanceFunc <;>
      simp [ProblemConfig.Enrich, hcondT, hfi]
  refine ⟨?_, hb, ?_⟩
  · intro cfg ctx p hcond
    have hfalse : ¬(cfg.ProblemTypeUrlFormat ≠ "" ∧ p.ptype ≠ aboutBlank
        ∧ strStarts p.ptype httpScheme = false) := by
      rintro ⟨h1, h2, h3⟩
      rcases hcond with hb' | hh'
      · exact h2 hb'
      · rw [hh'] at h3
        cases h3
    constructor
    · cases hfi : cfg.ProblemInstanceFunc <;>
        simp [ProblemConfig.Enrich, hfalse, hfi]
    · cases hfi : cfg.ProblemInstanceFunc <;>
        simp [ProblemConfig.Enrich, hfalse, hfi]
  · intro cfg ctx p hfmt hncond
    exact hb cfg ctx (cfg.Enrich ctx p) hfmt hncond

/-- Concrete enrichment configuration for the C7 counterexample: the
format template produces absolute `https` type URIs, as the default
configuration in the repository does. -/
def cfgC7 : ProblemConfig := { ProblemTypeUrlFormat := "https://e/%s" }

/-- Concrete problem with a non-absolute type for the C7 counterexample. -/
def pC7 : Problem := { ptype := "oops", title := "Oops", status := 400 }

/-- Concrete context shared by the C7 theorems. -/
def ctx0 : Ctx := {}

/-- The C7 counterexample.  With the repository's kind of `https` format
template, `Enrich` is idempotent on a problem whose type is NOT already
absolute: the first application makes the type absolute, so the second
application does not re-apply the format.  Idempotence therefore does
not hold *exactly* on already-absolute types. -/
theorem enrich_idempotent_counterexample :
    ¬(pC7.ptype = aboutBlank ∨ strStarts pC7.ptype httpScheme = true)
    ∧ cfgC7.Enrich ctx0 (cfgC7.Enrich ctx0 pC7) = cfgC7.Enrich ctx0 pC7
    ∧ (cfgC7.Enrich ctx0 pC7).ptype = "https://e/oops"
    ∧ (cfgC7.Enrich ctx0 (cfgC7.Enrich ctx0 pC7)).ptype
        ≠ sprintf1 cfgC7.ProblemTypeUrlFormat (cfgC7.Enrich ctx0 pC7).ptype :=
  ⟨by decide, by decide, by decide, by decide⟩

/-- Concrete enrichment configuration for the C7 witness: a format whose
output is never `http`-absolute, so re-enrichment re-applies it. -/
def cfgC7w : ProblemConfig := { ProblemTypeUrlFormat := "urn:e:%s" }

/-- Concrete non-absolute problem for the C7 witness. -/
def pC7w : Problem := { ptype := "oops", title := "Oops", status := 400 }

/-- Concrete blank-type problem for the C7 witness. -/
def pC7blank : Problem := { ptype := aboutBlank, title := "B", status := 404 }

/-- Witness for the C7 amended theorem: its three parts applied at
concrete inputs. -/
theorem enrich_type_rewrite_witness :
    cfgC7w.ProblemTypeUrlFormat ≠ ""
    ∧ ¬(pC7w.ptype = aboutBlank ∨ strStarts pC7w.ptype httpScheme = true)
    ∧ (cfgC7w.Enrich ctx0 pC7w).ptype = sprintf1 cfgC7w.ProblemTypeUrlFormat pC7w.ptype
    ∧ ¬((cfgC7w.Enrich ctx0 pC7w).ptype = aboutBlank
        ∨ strStarts (cfgC7w.Enrich ctx0 pC7w).ptype httpScheme = true)
    ∧ (cfgC7w.Enrich ctx0 (cfgC7w.Enrich ctx0 pC7w)).ptype
        = sprintf1 cfgC7w.ProblemTypeUrlFormat (cfgC7w.Enrich ctx0 pC7w).ptype
    ∧ (pC7blank.ptype = aboutBlank ∨ strStarts pC7blank.ptype httpScheme = true)
    ∧ cfgC7w.Enrich ctx0 (cfgC7w.Enrich ctx0 pC7blank) = cfgC7w.Enrich ctx0 pC7blank :=
  ⟨by decide, by decide,
    enrich_type_rewrite.2.1 cfgC7w ctx0 pC7w (by decide) (by decide),
    by decide,
    enrich_type_rewrite.2.2 cfgC7w ctx0 pC7w (by decide) (by decide),
    by decide,
    (enrich_type_rewrite.1 cfgC7w ctx0 pC7blank (by decide)).1⟩

/-- Value-level lemma: when an instance hook is configured, `Enrich`
stores the hook's value at the ambient context in the problem. -/
theorem Enrich_instanceUri (cfg : ProblemConfig) (ctx : Ctx) (p : Problem)
    (f : Ctx → String) (hf : cfg.ProblemInstanceFunc = some f) :
    (cfg.Enrich ctx p).instanceUri = f ctx := by
  simp [ProblemConfig.Enrich, hf]

/-- The C8 amended theorem.  The adapter performs no staleness check on
the request context: whenever all applicable decode phases succeed, the
user function is invoked with exactly the ambient request context (stale
or not), and on a user error the problem-instance hook receives that
same context — the served problem's instance URI is the hook's value at
the request context. -/
theorem context_propagation {T O : Type} (h : HandlerSpec T O) (r : Request)
    (ps : Params) (req : T)
    (hdec : (runDecodes h r ps).1 = Except.ok req) :
    Ev.invoke r.ctx ∈ (handle h r ps).2
    ∧ (∀ err f, h.handler r.ctx req = Except.error err →
        h.config.pc.ProblemInstanceFunc = some f →
        ∃ pr, (handle h r ps).1.body = [Chunk.problem pr] ∧ pr.instanceUri = f r.ctx) := by
  constructor
  · cases hh : h.handler r.ctx req with
    | error err => simp [handle, hdec, hh]
    | ok res =>
      by_cases henc : h.encodeOk res = true <;> simp [handle, hdec, hh, henc]
  · intro err f hh hf
    have hfst : (handle h r ps).1
        = (h.config.pc.Enrich r.ctx (classify err)).ServeJSON
            { (RW.empty : RW O) with
              header := mput (RW.empty : RW O).header contentTypeKey [jsonCharsetCT] } := by
      simp [handle, hdec, hh, serveProblemRun_fst]
    refine ⟨h.config.pc.Enrich r.ctx (classify err), ?_, ?_⟩
    · rw [hfst, ServeJSON_body]
      rfl
    · exact Enrich_instanceUri _ _ _ f hf

/-- Concrete request with an already-stale context for the C8
counterexample. -/
def rC8 : Request := { ctx := { stale := true, id := 7 } }

/-- Concrete adapter for the C8 counterexample. -/
def hC8 : HandlerSpec Nat Nat :=
  { config := {}, tZero := 0, handler := fun _ t => Except.ok (t + 7),
    codecs := codecsOk }

/-- The C8 counterexample.  With an already-stale request context the
adapter still invokes the user function (passing that very context) and
serves the success payload — there is no staleness check before the
invocation. -/
theorem context_check_counterexample :
    rC8.ctx.stale = true
    ∧ Ev.invoke rC8.ctx ∈ (handle hC8 rC8 []).2
    ∧ (handle hC8 rC8 []).1.status = some 200
    ∧ (handle hC8 rC8 []).1.body = [Chunk.payload 7] :=
  ⟨rfl, by decide, rfl, rfl⟩

/-- Concrete instance hook for the C8 witness. -/
def fC8 : Ctx → String := fun c => if c.stale then "stale-trace" else "fresh-trace"

/-- Concrete adapter for the C8 witness: an erroring user function and a
configured instance hook. -/
def hC8w : HandlerSpec Nat Nat :=
  { config := { pc := { ProblemInstanceFunc := some fC8 } }, tZero := 0,
    handler := fun _ _ => Except.error (UserErr.other "x"), codecs := codecsOk }

/-- Concrete request for the C8 witness. -/
def rC8w : Request := { ctx := { stale := true, id := 3 } }

/-- Witness for the C8 amended theorem at a concrete stale-context run. -/
theorem context_propagation_witness :
    (runDecodes hC8w rC8w []).1 = Except.ok 0
    ∧ Ev.invoke rC8w.ctx ∈ (handle hC8w rC8w []).2
    ∧ (∃ pr, (handle hC8w rC8w []).1.body = [Chunk.problem pr]
        ∧ pr.instanceUri = fC8 rC8w.ctx) :=
  ⟨rfl, (context_propagation hC8w rC8w [] 0 rfl).1,
    (context_propagation hC8w rC8w [] 0 rfl).2 (UserErr.other "x") fC8 rfl rfl⟩

/-- The claim C9 theorem.  The two lineages compose middleware in
opposite orders: the japi `Router()` equals the minimal `Router()` run on
the reversed registration list; in the japi chain the first-registered
middleware is outermost, while in the minimal chain the last-registered
middleware is outermost. -/
theorem middleware_order_opposite :
    (∀ (H : Type) (mw : List (H → H)) (base : H),
        japiRouterChain mw base = minimalRouterChain mw.reverse base)
    ∧ (∀ (H : Type) (m : H → H) (rest : List (H → H)) (base : H),
        japiRouterChain (m :: rest) base = m (japiRouterChain rest base))
    ∧ (∀ (H : Type) (mw : List (H → H)) (m : H → H) (base : H),
        minimalRouterChain (mw ++ [m]) base = m (minimalRouterChain mw base)) := by
  refine ⟨?_, ?_, ?_⟩
  · intro H mw base
    rfl
  · intro H m rest base
    simp [japiRouterChain, List.foldl_append]
  · intro H mw m base
    simp [minimalRouterChain, List.foldl_append]

/-! ### Lemmas about the route-variables fold -/

theorem routeStep_ne (route : String) (acc : List (String × String)) (q : String × String)
    (hq : q.2 ≠ route) : routeStep route acc q = mput acc q.1 q.2 := if_pos hq

theorem routeStep_eq (route : String) (acc : List (String × String)) (q : String × String)
    (hq : ¬q.2 ≠ route) : routeStep route acc q = acc := if_neg hq

theorem routeFold_sound (route : String) (l : Params) :
    ∀ (acc : List (String × String)) (k v : String),
      mget (l.foldl (routeStep route) acc) k = some v →
        mget acc k = some v ∨ ((k, v) ∈ l ∧ v ≠ route) := by
  induction l with
  | nil =>
    intro acc k v hm
    exact Or.inl hm
  | cons q rest ih =>
    intro acc k v hm
    rw [List.foldl_cons] at hm
    by_cases hq : q.2 ≠ route
    · rw [routeStep_ne route acc q hq] at hm
      rcases ih (mput acc q.1 q.2) k v hm with hacc | hrest
      · rw [mget_mput] at hacc
        by_cases hk : q.1 = k
        · rw [if_pos hk] at hacc
          have hv : q.2 = v := by injection hacc
          refine Or.inr ⟨?_, hv ▸ hq⟩
          have hpair : (k, v) = q := by
            rw [← hk, ← hv]
          rw [hpair]
          exact List.mem_cons_self q rest
        · rw [if_neg hk] at hacc
          exact Or.inl hacc
      · exact Or.inr ⟨List.mem_cons_of_mem q hrest.1, hrest.2⟩
    · rw [routeStep_eq route acc q hq] at hm
      rcases ih acc k v hm with hacc | hrest
      · exact Or.inl hacc
      · exact Or.inr ⟨List.mem_cons_of_mem q hrest.1, hrest.2⟩

theorem routeFold_preserve (route : String) (l : Params) :
    ∀ (acc : List (String × String)) (k v : String),
      mget acc k = some v →
        ∃ v', mget (l.foldl (routeStep route) acc) k = some v' := by
  induction l with
  | nil =>
    intro acc k v hacc
    exact ⟨v, hacc⟩
  | cons q rest ih =>
    intro acc k v hacc
    rw [List.foldl_cons]
    by_cases hq : q.2 ≠ route
    · rw [routeStep_ne route acc q hq]
      by_cases hk : q.1 = k
      · exact ih (mput acc q.1 q.2) k q.2 (by rw [mget_mput, if_pos hk])
      · exact ih (mput acc q.1 q.2) k v (by rw [mget_mput, if_neg hk]; exact hacc)
    · rw [routeStep_eq route acc q hq]
      exact ih acc k v hacc

theorem routeFold_complete (route : String) (l : Params) :
    ∀ (acc : List (String × String)) (k v : String), (k, v) ∈ l → v ≠ route →
      ∃ v', mget (l.foldl (routeStep route) acc) k = some v' := by
  induction l with
  | nil =>
    intro acc k v hin
    cases hin
  | cons q rest ih =>
    intro acc k v hin hv
    rw [List.foldl_cons]
    rcases List.mem_cons.mp hin with heq | hmem
    · have hk : k = q.1 := congrArg Prod.fst heq
      have hval : v = q.2 := congrArg Prod.snd heq
      have hq : q.2 ≠ route := hval ▸ hv
      rw [routeStep_ne route acc q hq]
      exact routeFold_preserve route rest (mput acc q.1 q.2) k q.2
        (by rw [mget_mput, if_pos hk.symm])
    · by_cases hq : q.2 ≠ route
      · rw [routeStep_ne route acc q hq]
        exact ih (mput acc q.1 q.2) k v hmem hv
      · rw [routeStep_eq route acc q hq]
        exact ih acc k v hmem hv

/-- The claim C10 theorem.  When the route-log hook is configured, the
hook is invoked with the ambient context, the matched route template and
a variables map that contains an entry for a captured key exactly when
some captured parameter under that key has a value different from the
matched route template: every entry of the map is such a parameter (so
the saved matched-route pseudo-parameter is excluded, and so is a
genuine parameter whose value happens to equal the template), and every
parameter whose value differs from the template contributes its key. -/
theorem route_log_vars {T O : Type} (h : HandlerSpec T O) (r : Request) (ps : Params)
    (hlog : h.config.hasRouteLog = true) :
    Ev.routeLog r.ctx (matchedRoutePath ps) (routeVars ps) ∈ (handle h r ps).2
    ∧ (∀ k v, mget (routeVars ps) k = some v → (k, v) ∈ ps ∧ v ≠ matchedRoutePath ps)
    ∧ (∀ k v, (k, v) ∈ ps → v ≠ matchedRoutePath ps →
        ∃ v', mget (routeVars ps) k = some v')
    ∧ (∀ k, mget (routeVars ps) k ≠ some (matchedRoutePath ps)) := by
  refine ⟨?_, ?_, ?_, ?_⟩
  · cases hE : (runDecodes h r ps).1 with
    | error e => simp [handle, hE, hlog]
    | ok req =>
      cases hh : h.handler r.ctx req with
      | error err => simp [handle, hE, hh, hlog]
      | ok res =>
        by_cases henc : h.encodeOk res = true <;> simp [handle, hE, hh, henc, hlog]
  · intro k v hm
    have hs := routeFold_sound (matchedRoutePath ps) ps [] k v (by simpa [routeVars] using hm)
    rcases hs with hacc | hok
    · cases hacc
    · exact hok
  · intro k v hin hv
    have hc := routeFold_complete (matchedRoutePath ps) ps [] k v hin hv
    simpa [routeVars] using hc
  · intro k hm
    have hs := routeFold_sound (matchedRoutePath ps) ps [] k (matchedRoutePath ps)
      (by simpa [routeVars] using hm)
    rcases hs with hacc | hok
    · cases hacc
    · exact hok.2 rfl

/-- Concrete adapter for the C10 witness: the route-log hook is
configured. -/
def hC10 : HandlerSpec Nat Nat :=
  { config := { hasRouteLog := true }, tZero := 0,
    handler := fun _ t => Except.ok t, codecs := codecsOk }

/-- Concrete request for the C10 witness. -/
def rC10 : Request := {}

/-- Concrete captured parameters for the C10 witness: one genuine
parameter, one genuine parameter whose value equals the route template,
and the saved matched-route pseudo-parameter. -/
def psC10 : Params :=
  [("name", "Ada"), ("odd", "/hello/:name"), (matchedRouteKey, "/hello/:name")]

/-- Witness for the C10 theorem: the hook receives the variables map
with the route-valued entries excluded. -/
theorem route_log_vars_witness :
    hC10.config.hasRouteLog = true
    ∧ Ev.routeLog rC10.ctx (matchedRoutePath psC10) (routeVars psC10)
        ∈ (handle hC10 rC10 psC10).2
    ∧ routeVars psC10 = [("name", "Ada")]
    ∧ mget (routeVars psC10) "odd" = none
    ∧ mget (routeVars psC10) matchedRouteKey = none :=
  ⟨rfl, (route_log_vars hC10 rC10 psC10 rfl).1, by decide, by decide, by decide⟩

end Japi
